import Mathlib

/-!
Verification of the session-state layer of the MrV backend.

The definitions below are a shallow embedding of the Python source:

* `src/backend/src/agents/state.py` — `StateNode`, `AgentState`
* `src/backend/src/agents/graph.py` — `CognitiveGraph.determine_transition`
* `src/backend/src/agents/nodes/ambiguity_scanner.py` — `AmbiguityScanner`
  (the `use_llm=False` configuration, which is the one the turn handler
  constructs)
* `src/backend/src/agents/nodes/socratic_interrogator.py` —
  `SocraticInterrogator` (`use_llm=False`)
* `src/backend/src/memory/graph_store.py` — `TemporalKnowledgeGraph.connect`
* `src/backend/src/memory/vector_store.py` — `EpisodicMemory.retrieve`
* `src/backend/src/api/routes/agent.py` — the session maps, the lock
  registry, TTL cleanup and the turn handler `process_input`.

Modelling conventions:

* Python floats are modelled as `ℚ`; every constant appearing in the code
  (`0.7`, `0.5`, `2`, `20`) is exactly representable, and all branch
  decisions proved below are far from any rounding boundary.
* `datetime` timestamps are modelled as `ℤ` seconds; `timedelta(minutes=30)`
  becomes `1800`.
* Python dicts used as maps keyed by session id are modelled as association
  lists (`alist_get` / `alist_set` below); dict assignment updates the entry
  in place, which `alist_set` mirrors.
* A Python exception is modelled as the `Except.error` branch of
  `Except String`; `try/except/finally` is modelled by matching on that
  result, with the `finally` effect performed on both branches.
* `asyncio` locks: the handler runs one turn at a time (single-threaded
  cooperative scheduling), so a turn is one state transformer.  Each lock
  object's internal acquired flag is modelled by the `locked` list of the
  store (the ids whose lock is currently held); `async with session_lock`
  adds the id on entry and removes it on every exit path.  Blocks that the
  source runs while holding the registry guard `_locks_lock`
  (`get_or_create_session_lock`, `cleanup_expired_sessions`) are each a
  single state transformer, which is exactly the atomicity the guard lock
  provides.
-/

/-! ### Association-list maps (model of Python dicts keyed by session id) -/

def alist_get {β : Type} (l : List (String × β)) (k : String) : Option β :=
  match l with
  | [] => none
  | (k', v) :: rest => if k' = k then some v else alist_get rest k

def alist_set {β : Type} (l : List (String × β)) (k : String) (v : β) :
    List (String × β) :=
  match l with
  | [] => [(k, v)]
  | (k', v') :: rest =>
      if k' = k then (k, v) :: rest else (k', v') :: alist_set rest k v

/-! ### Data model (`state.py`) -/

/-- `StateNode` from `src/backend/src/agents/state.py`. -/
inductive StateNode where
  | AMBIGUITY_SCANNER
  | SOCRATIC_INTERROGATOR
  | ONTOLOGY_ARCHITECT
  | STRATEGY_MOTOR
  | EXECUTOR
  | REFLECTOR
deriving DecidableEq

/-- Dict-like payloads (`Dict[str, Any]` values never inspected by the code
under verification). -/
abbrev Payload := List (String × String)

/-- One entry of `AgentState.conversation_history`.  The code appends exactly
two shapes of dict: the scan record
`{"role": "system", "analysis": f"Ambiguity detected: {score:.2f}", "content": content}`
(the `analysis` string is determined by the score, which we store directly)
and the clarification record
`{"role": "assistant", "type": "clarification", "questions": qs, "reasoning": r}`. -/
inductive HistoryRecord where
  | scan (role : String) (ambiguity_score : ℚ) (content : String)
  | clarification (role : String) (questions : List String) (reasoning : String)
deriving DecidableEq

/-- `AgentState` from `src/backend/src/agents/state.py`, with the pydantic
defaults. -/
structure AgentState where
  current_node : StateNode
  user_input : String
  conversation_history : List HistoryRecord := []
  ambiguity_score : ℚ := 0
  domain_ontology : Option Payload := none
  project_logic : Option Payload := none
  kpis : Option (List Payload) := none
  error_message : Option String := none
deriving DecidableEq

/-- The per-session metadata dict `{"created": ..., "last_access": ...}`. -/
structure SessionMetadata where
  created : ℤ
  last_access : ℤ
deriving DecidableEq

/-- The module-level mutable maps of `src/backend/src/api/routes/agent.py`:
`sessions`, `session_metadata`, `session_locks`, plus the allocation counter
`next_lock` that models creation of fresh `asyncio.Lock()` objects (each
handle is a distinct number) and `locked`, the ids whose session lock is
currently held (the acquired flags of the lock objects). -/
structure Store where
  sessions : List (String × AgentState) := []
  session_metadata : List (String × SessionMetadata) := []
  session_locks : List (String × ℕ) := []
  next_lock : ℕ := 0
  locked : List String := []
deriving DecidableEq

/-- `SESSION_TTL = timedelta(minutes=30)`, in seconds. -/
def SESSION_TTL : ℤ := 30 * 60

/-! ### Ambiguity scanner (`ambiguity_scanner.py`, `use_llm=False`) -/

/-- `AmbiguityScanner.VAGUE_TERMS`. -/
def VAGUE_TERMS : List String :=
  ["fix", "improve", "optimize", "better", "help", "manage",
   "handle", "deal with", "work on", "something", "stuff", "business"]

/-- Splitting a character list on whitespace runs, accumulating the current
word in reverse: the behaviour of Python `str.split()` with no separator
(leading, trailing and repeated whitespace produce no empty words). -/
def split_words_aux (cur : List Char) (cs : List Char) : List String :=
  match cs with
  | [] => if cur.isEmpty then [] else [String.mk cur.reverse]
  | c :: rest =>
      if c.isWhitespace then
        if cur.isEmpty then split_words_aux [] rest
        else String.mk cur.reverse :: split_words_aux [] rest
      else split_words_aux (c :: cur) rest

/-- `text.lower().split()`: lower-case every character, then split on
whitespace runs. -/
def lower_words (text : String) : List String :=
  split_words_aux [] (text.data.map Char.toLower)

/-- Python `min(a, b)`: the second argument only when it is strictly
smaller. -/
def pymin (a b : ℚ) : ℚ := if b < a then b else a

/-- Python `max(a, b)`: the second argument only when it is strictly
larger. -/
def pymax (a b : ℚ) : ℚ := if a < b then b else a

/-- `AmbiguityScanner._calculate_lexical_ambiguity` (leading underscore
dropped).  `words = text.lower().split()`; `vague_count` counts words in
`VAGUE_TERMS`; empty input scores `1.0`; otherwise
`min(1.0, vague_ratio * 2 + length_penalty * 0.5)` with
`vague_ratio = vague_count / len(words)` and
`length_penalty = max(0, 1 - len(words) / 20)`. -/
def calculate_lexical_ambiguity (text : String) : ℚ :=
  let words := lower_words text
  let vague_count := (words.filter (fun w => VAGUE_TERMS.contains w)).length
  if words.length = 0 then 1
  else
    let vague_ratio : ℚ := (vague_count : ℚ) / (words.length : ℚ)
    let length_penalty : ℚ := pymax 0 (1 - (words.length : ℚ) / 20)
    pymin 1 (vague_ratio * 2 + length_penalty * (1 / 2))

/-- `AmbiguityScanner.analyze` with `use_llm=False`: computes the lexical
score, sets `state.ambiguity_score` and appends the scan record with
`content = "Lexical analysis only"`. -/
def AmbiguityScanner.analyze (state : AgentState) : AgentState :=
  let lexical_score := calculate_lexical_ambiguity state.user_input
  let content := "Lexical analysis only"
  let ambiguity_score := lexical_score
  { state with
    ambiguity_score := ambiguity_score
    conversation_history := state.conversation_history ++
      [HistoryRecord.scan "system" ambiguity_score content] }

/-! ### Socratic interrogator (`socratic_interrogator.py`, `use_llm=False`) -/

/-- The hardcoded questions of the `use_llm=False` branch of
`SocraticInterrogator.generate_questions`. -/
def hardcoded_questions : List String :=
  ["What is the primary objective - reducing cost, improving speed, or enhancing quality?",
   "What are your key constraints in terms of budget, timeline, and resources?",
   "How will you measure success for this project?"]

/-- The hardcoded reasoning string of the same branch. -/
def hardcoded_reasoning : String :=
  "These questions help clarify goals, constraints, and success criteria"

/-- `SocraticInterrogator.generate_questions` with `use_llm=False`: appends
the clarification record with the hardcoded questions and reasoning. -/
def SocraticInterrogator.generate_questions (state : AgentState) : AgentState :=
  { state with
    conversation_history := state.conversation_history ++
      [HistoryRecord.clarification "assistant" hardcoded_questions hardcoded_reasoning] }

/-! ### Transition function (`graph.py`) -/

/-- Return type of `CognitiveGraph.determine_transition`: a `StateNode` or
the langgraph `END` sentinel. -/
inductive TransitionTarget where
  | node (n : StateNode)
  | END
deriving DecidableEq

/-- `CognitiveGraph.determine_transition`: the `if/elif` chain of
`src/backend/src/agents/graph.py` lines 9–34, reading only
`state.current_node` and `state.ambiguity_score`.  The trailing
`return END` of the source is unreachable because the chain covers every
enumeration member. -/
def CognitiveGraph.determine_transition (state : AgentState) : TransitionTarget :=
  match state.current_node with
  | .AMBIGUITY_SCANNER =>
      if state.ambiguity_score > 7 / 10 then .node .SOCRATIC_INTERROGATOR
      else .node .ONTOLOGY_ARCHITECT
  | .SOCRATIC_INTERROGATOR => .node .AMBIGUITY_SCANNER
  | .ONTOLOGY_ARCHITECT => .node .STRATEGY_MOTOR
  | .STRATEGY_MOTOR => .node .EXECUTOR
  | .EXECUTOR => .node .REFLECTOR
  | .REFLECTOR => .node .STRATEGY_MOTOR

/-! ### Temporal knowledge graph (`graph_store.py`) -/

/-- The fields of `TemporalKnowledgeGraph` that `connect`/`close` touch.
Constructor defaults: `use_memory=True`, `driver=None` (the driver object is
opaque here). -/
structure TemporalKnowledgeGraph where
  use_memory : Bool := true
  driver : Option Unit := none
deriving DecidableEq

/-- `TemporalKnowledgeGraph.connect`.  `driver_result` is the outcome of the
`try` body (importing neo4j, loading config and building the driver), which
the source wraps in `try/except`.  The `Except` return type records whether
`connect` itself raises; the `except` clause turns a failure into the
in-memory fallback `use_memory = True` instead. -/
def TemporalKnowledgeGraph.connect (driver_result : Except String Unit)
    (g : TemporalKnowledgeGraph) : Except String TemporalKnowledgeGraph :=
  if g.use_memory then .ok g
  else
    match driver_result with
    | .ok d => .ok { g with driver := some d }
    | .error _ => .ok { g with use_memory := true }

/-! ### Episodic memory (`vector_store.py`) -/

/-- One entry of `EpisodicMemory.documents`:
`{"id": ..., "content": ..., "metadata": ...}`. -/
structure StoredDoc where
  id : String
  content : String
  metadata : Payload
deriving DecidableEq

/-- One element of the list `retrieve` returns:
`{"content": ..., "metadata": ...}`. -/
structure RetrievedDoc where
  content : String
  metadata : Payload
deriving DecidableEq

/-- `set(s.lower().split())`: the distinct lower-cased words of `s`. -/
def word_set (s : String) : List String :=
  (lower_words s).dedup

/-- `len(query_words & content_words)`: the number of distinct words of
`content` that also occur in `query_words`. -/
def overlap_score (query_words : List String) (content : String) : ℕ :=
  ((word_set content).filter (fun w => query_words.contains w)).length

/-- `EpisodicMemory.retrieve(query, k)` over a document list: keep documents
with positive word overlap together with their scores, sort by score
descending (Python `list.sort` is stable; `mergeSort` with `b.1 ≤ a.1`
matches `reverse=True`), take the first `k` and project out
content/metadata. -/
def EpisodicMemory.retrieve (documents : List StoredDoc) (query : String)
    (k : ℕ) : List RetrievedDoc :=
  let query_words := word_set query
  let scored_docs := documents.filterMap (fun doc =>
    let overlap := overlap_score query_words doc.content
    if overlap > 0 then some (overlap, doc) else none)
  let sorted := scored_docs.mergeSort (fun a b => decide (b.1 ≤ a.1))
  (sorted.take k).map (fun p => { content := p.2.content, metadata := p.2.metadata })

/-- The mutable state of an `EpisodicMemory` instance. -/
structure EpisodicMemoryState where
  documents : List StoredDoc
deriving DecidableEq

/-- The `retrieve` method as a state transformer on the instance: the body
reads `self.documents` and never assigns to it. -/
def EpisodicMemory.retrieveM (mem : EpisodicMemoryState) (query : String)
    (k : ℕ) : List RetrievedDoc × EpisodicMemoryState :=
  (EpisodicMemory.retrieve mem.documents query k, mem)

/-! ### Session layer (`api/routes/agent.py`) -/

/-- `ProcessRequest`. -/
structure ProcessRequest where
  input : String
  session_id : String
deriving DecidableEq

/-- `ProcessResponse` with its pydantic defaults. -/
structure ProcessResponse where
  session_id : String
  ambiguity_score : Option ℚ := none
  questions : Option (List String) := none
  ontology : Option Payload := none
  kpis : Option (List Payload) := none
  message : String
deriving DecidableEq

/-- `HTTPException(status_code=500, detail=str(e))` as surfaced to the
client. -/
structure HTTPError where
  status_code : ℕ
  detail : String
deriving DecidableEq

/-- `get_or_create_session_lock`: inside `async with _locks_lock`, insert a
fresh lock if the id is absent, then return the id's lock.  The whole
function body runs under the guard lock, hence is one atomic step here. -/
def get_or_create_session_lock (session_id : String) (st : Store) :
    ℕ × Store :=
  match alist_get st.session_locks session_id with
  | some h => (h, st)
  | none =>
      (st.next_lock,
       { st with
         session_locks := alist_set st.session_locks session_id st.next_lock
         next_lock := st.next_lock + 1 })

/-- `cleanup_expired_sessions`, with `now = datetime.now()` passed in:
under the guard lock, collect the ids whose metadata satisfies
`now - last_access > SESSION_TTL` and pop each from `sessions`,
`session_locks` and `session_metadata`. -/
def cleanup_expired_sessions (now : ℤ) (st : Store) : Store :=
  let expired := (st.session_metadata.filter
    (fun p => decide (now - p.2.last_access > SESSION_TTL))).map Prod.fst
  { st with
    sessions := st.sessions.filter (fun p => decide (p.1 ∉ expired))
    session_locks := st.session_locks.filter (fun p => decide (p.1 ∉ expired))
    session_metadata :=
      st.session_metadata.filter (fun p => decide (p.1 ∉ expired)) }

/-- The state the turn works on, as produced by the get-or-create block of
`process_input` (lines 83–98): a fresh default state for an unknown id,
otherwise the stored state with `user_input` overwritten. -/
def init_state (session_id input : String)
    (sessions : List (String × AgentState)) : AgentState :=
  match alist_get sessions session_id with
  | none =>
      { current_node := .AMBIGUITY_SCANNER
        user_input := input
        conversation_history := [] }
  | some s0 => { s0 with user_input := input }

/-- The get-or-create block of `process_input` (lines 83–98).  Unknown id:
store the fresh state and fresh metadata with `created = last_access = now`.
Known id: `state.user_input = request.input` mutates the stored object in
place (the map holds the same object), and `last_access` is refreshed.
(The source would raise a `KeyError` if the id had state but no metadata;
that situation is unreachable because both are always created together, and
the model leaves the metadata map unchanged in that case.) -/
def get_or_init (session_id input : String) (now : ℤ) (st : Store) :
    AgentState × Store :=
  let state := init_state session_id input st.sessions
  match alist_get st.sessions session_id with
  | none =>
      (state,
       { st with
         sessions := alist_set st.sessions session_id state
         session_metadata := alist_set st.session_metadata session_id
           { created := now, last_access := now } })
  | some _ =>
      (state,
       { st with
         sessions := alist_set st.sessions session_id state
         session_metadata :=
           match alist_get st.session_metadata session_id with
           | some m =>
               alist_set st.session_metadata session_id
                 { m with last_access := now }
           | none => st.session_metadata })

/-- The outcomes of the effectful calls inside the `try` block, so the same
turn handler can be run against failing stage processors or a failing
backend: `memory_init` is `await memory.initialize()`, `scan` is
`await scanner.analyze(state)`, `interrogate` is
`await interrogator.generate_questions(state)`.  `Except.error e` models the
call raising an exception whose `str` is `e`. -/
structure StageOracles where
  memory_init : Except String Unit
  scan : AgentState → Except String AgentState
  interrogate : AgentState → Except String AgentState

/-- The oracles of the code as shipped (`use_llm=False`, in-memory backend):
none of the three calls raises. -/
def realOracles : StageOracles where
  memory_init := .ok ()
  scan := fun state => .ok (AmbiguityScanner.analyze state)
  interrogate := fun state => .ok (SocraticInterrogator.generate_questions state)

/-- `questions = state.conversation_history[-1].get("questions", [])`:
the `questions` value of the last history record, `[]` when the record has
no such key.  (The history is never empty at this point — the scan record
was just appended.) -/
def last_questions (history : List HistoryRecord) : List String :=
  match history.getLast? with
  | some (.clarification _ qs _) => qs
  | _ => []

/-- The body of the `try` block of `process_input` (lines 104–119): run
`memory.initialize()`, the scanner, and — when the new score exceeds `0.7`
— the interrogator, extracting the questions from the record it appended.
Returns the final state and the `questions` response field (`none` when the
interrogator was skipped). -/
def run_stages (o : StageOracles) (state : AgentState) :
    Except String (AgentState × Option (List String)) := do
  let _ ← o.memory_init
  let state ← o.scan state
  if state.ambiguity_score > 7 / 10 then
    let state ← o.interrogate state
    pure (state, some (last_questions state.conversation_history))
  else
    pure (state, none)

/-- The observable outcome of one call of `process_input`: the value or
`HTTPException` returned, the module maps afterwards, and whether
`memory.close()` ran. -/
structure TurnResult where
  response : Except HTTPError ProcessResponse
  store : Store
  memory_closed : Bool

/-- `process_input` (lines 67–135).  `do_cleanup` is the outcome of
`random.random() < 0.01`.  Control flow of the source: optional cleanup
sweep; resolve the session lock; `async with session_lock` (acquire; release
on every exit); get-or-create the session; `try`: initialize memory, run the
scanner, conditionally the interrogator, store the final state, return the
response; `except`: re-raise as `HTTPException(500, str(e))`;
`finally`: `await memory.close()`. -/
def process_input (o : StageOracles) (do_cleanup : Bool) (now : ℤ)
    (req : ProcessRequest) (st0 : Store) : TurnResult :=
  let st1 := if do_cleanup then cleanup_expired_sessions now st0 else st0
  let st2 := (get_or_create_session_lock req.session_id st1).2
  let st3 := { st2 with locked := req.session_id :: st2.locked }
  let state0 := (get_or_init req.session_id req.input now st3).1
  let st4 := (get_or_init req.session_id req.input now st3).2
  match run_stages o state0 with
  | .ok (state1, questions) =>
      let st5 := { st4 with
        sessions := alist_set st4.sessions req.session_id state1 }
      let st6 := { st5 with locked := st5.locked.erase req.session_id }
      { response := .ok
          { session_id := req.session_id
            ambiguity_score := some state1.ambiguity_score
            questions := questions
            message := "Input processed successfully" }
        store := st6
        memory_closed := true }
  | .error e =>
      let st6 := { st4 with locked := st4.locked.erase req.session_id }
      { response := .error { status_code := 500, detail := e }
        store := st6
        memory_closed := true }

/-! ### Basic lemmas about the model -/

theorem pymin_le_left (a b : ℚ) : pymin a b ≤ a := by
  unfold pymin
  split
  · exact le_of_lt (by assumption)
  · exact le_refl a

theorem pymin_nonneg {a b : ℚ} (ha : 0 ≤ a) (hb : 0 ≤ b) : 0 ≤ pymin a b := by
  unfold pymin
  split <;> assumption

theorem le_pymax_left (a b : ℚ) : a ≤ pymax a b := by
  unfold pymax
  split
  · exact le_of_lt (by assumption)
  · exact le_refl a

theorem alist_get_set_same {β : Type} (l : List (String × β)) (k : String)
    (v : β) : alist_get (alist_set l k v) k = some v := by
  induction l with
  | nil => simp [alist_set, alist_get]
  | cons p rest ih =>
      by_cases h : p.1 = k
      · simp [alist_set, alist_get, h]
      · simpa [alist_set, alist_get, h] using ih

theorem alist_get_set_other {β : Type} (l : List (String × β)) (k k' : String)
    (v : β) (hne : k' ≠ k) :
    alist_get (alist_set l k v) k' = alist_get l k' := by
  have hne' : k ≠ k' := Ne.symm hne
  induction l with
  | nil => simp [alist_set, alist_get, hne']
  | cons p rest ih =>
      by_cases h : p.1 = k
      · simp [alist_set, alist_get, h, hne']
      · by_cases h' : p.1 = k'
        · simp [alist_set, alist_get, h, h', hne]
        · simpa [alist_set, alist_get, h, h'] using ih

theorem alist_set_of_get_none {β : Type} (l : List (String × β)) (k : String)
    (v : β) (h : alist_get l k = none) : alist_set l k v = l ++ [(k, v)] := by
  induction l with
  | nil => simp [alist_set]
  | cons p rest ih =>
      by_cases hk : p.1 = k
      · simp [alist_get, hk] at h
      · simp only [alist_get, hk, if_false, if_neg hk] at h ⊢
        rw [alist_set]
        simp only [if_neg hk, List.cons_append, List.cons.injEq, true_and]
        exact ih h

theorem alist_get_eq_none_iff {β : Type} (l : List (String × β)) (k : String) :
    alist_get l k = none ↔ k ∉ l.map Prod.fst := by
  induction l with
  | nil => simp [alist_get]
  | cons p rest ih =>
      by_cases hk : p.1 = k
      · simp [alist_get, hk]
      · simp [alist_get, hk, ih, Ne.symm hk]

/-- `alist_get` through a filter that removes a set of keys: a removed key
reads as absent. -/
theorem alist_get_filter_of_mem {β : Type} (l : List (String × β))
    (ks : List String) (k : String) (h : k ∈ ks) :
    alist_get (l.filter (fun p => decide (p.1 ∉ ks))) k = none := by
  induction l with
  | nil => simp [alist_get]
  | cons p rest ih =>
      by_cases hp : p.1 ∈ ks
      · simpa [List.filter, hp] using ih
      · have hk : p.1 ≠ k := fun he => hp (he ▸ h)
        simpa [List.filter, hp, alist_get, hk] using ih

/-- `alist_get` through a filter that removes a set of keys: a key not
removed reads unchanged. -/
theorem alist_get_filter_of_not_mem {β : Type} (l : List (String × β))
    (ks : List String) (k : String) (h : k ∉ ks) :
    alist_get (l.filter (fun p => decide (p.1 ∉ ks))) k = alist_get l k := by
  induction l with
  | nil => simp
  | cons p rest ih =>
      by_cases hp : p.1 ∈ ks
      · have hk : p.1 ≠ k := fun he => h (he ▸ hp)
        simpa [List.filter, hp, alist_get, hk] using ih
      · by_cases hk : p.1 = k
        · simp [List.filter, hp, alist_get, hk, h]
        · simpa [List.filter, hp, alist_get, hk] using ih

theorem alist_get_of_mem_nodup {β : Type} {l : List (String × β)}
    {k : String} {v : β} (hnd : (l.map Prod.fst).Nodup) (hm : (k, v) ∈ l) :
    alist_get l k = some v := by
  induction l with
  | nil => simp at hm
  | cons p rest ih =>
      simp only [List.map_cons, List.nodup_cons] at hnd
      rcases List.mem_cons.mp hm with he | hm'
      · rw [← he]
        simp [alist_get]
      · have hk : p.1 ≠ k := by
          intro hpk
          exact hnd.1 (hpk ▸ List.mem_map_of_mem Prod.fst hm')
        simp only [alist_get, hk, if_false, if_neg hk]
        exact ih hnd.2 hm'

/-! ### Claim theorems -/

/-- The first request of the two-turn scenario of the spec (§8). -/
def scenario_req1 : ProcessRequest :=
  { input := "Help me with my business", session_id := "A" }

/-- The second request of the two-turn scenario of the spec (§8). -/
def scenario_req2 : ProcessRequest :=
  { input := "Create a Gantt chart for construction with 5 phases", session_id := "A" }

/-- The first turn of the scenario, starting from empty session maps. -/
def scenario_turn1 : TurnResult :=
  process_input realOracles false 0 scenario_req1 {}

/-- The second turn of the scenario, on the maps the first turn left. -/
def scenario_turn2 : TurnResult :=
  process_input realOracles false 1 scenario_req2 scenario_turn1.store

/-- C1: processing "Help me with my business" then "Create a Gantt chart for
construction with 5 phases" for session "A" (LLM disabled): the first turn
returns ambiguity score `1 > 0.7` with the non-empty hardcoded question
list; the second returns score `11/40 < 0.5` with `questions` absent; the
stored conversation history afterwards is exactly scan record, interrogation
record, scan record, in arrival order. -/
theorem C1_two_turn_scenario :
    scenario_turn1.response = .ok
      { session_id := "A"
        ambiguity_score := some 1
        questions := some hardcoded_questions
        message := "Input processed successfully" } ∧
    (1 : ℚ) > 7 / 10 ∧
    hardcoded_questions ≠ [] ∧
    scenario_turn2.response = .ok
      { session_id := "A"
        ambiguity_score := some (11 / 40)
        questions := none
        message := "Input processed successfully" } ∧
    (11 / 40 : ℚ) < 1 / 2 ∧
    (alist_get scenario_turn2.store.sessions "A").map
        AgentState.conversation_history =
      some [HistoryRecord.scan "system" 1 "Lexical analysis only",
            HistoryRecord.clarification "assistant" hardcoded_questions
              hardcoded_reasoning,
            HistoryRecord.scan "system" (11 / 40) "Lexical analysis only"] := by
  refine ⟨?_, by norm_num, by simp [hardcoded_questions], ?_, by norm_num, ?_⟩
  · with_unfolding_all rfl
  · with_unfolding_all rfl
  · with_unfolding_all rfl

/-- C2: `determine_transition` is a deterministic function of the current
node and the ambiguity score, and realises the spec's transition table; at
`REFLECTOR` the code returns `STRATEGY_MOTOR`, one of the two targets the
claim allows. -/
theorem C2_transition_table (s s' : AgentState) :
    (s.current_node = s'.current_node → s.ambiguity_score = s'.ambiguity_score →
        CognitiveGraph.determine_transition s = CognitiveGraph.determine_transition s') ∧
    (s.current_node = .AMBIGUITY_SCANNER →
        (s.ambiguity_score > 7 / 10 →
          CognitiveGraph.determine_transition s = .node .SOCRATIC_INTERROGATOR) ∧
        (¬ s.ambiguity_score > 7 / 10 →
          CognitiveGraph.determine_transition s = .node .ONTOLOGY_ARCHITECT)) ∧
    (s.current_node = .SOCRATIC_INTERROGATOR →
        CognitiveGraph.determine_transition s = .node .AMBIGUITY_SCANNER) ∧
    (s.current_node = .ONTOLOGY_ARCHITECT →
        CognitiveGraph.determine_transition s = .node .STRATEGY_MOTOR) ∧
    (s.current_node = .STRATEGY_MOTOR →
        CognitiveGraph.determine_transition s = .node .EXECUTOR) ∧
    (s.current_node = .EXECUTOR →
        CognitiveGraph.determine_transition s = .node .REFLECTOR) ∧
    (s.current_node = .REFLECTOR →
        CognitiveGraph.determine_transition s = .node .STRATEGY_MOTOR ∨
        CognitiveGraph.determine_transition s = TransitionTarget.END) := by
  refine ⟨?_, ?_, ?_, ?_, ?_, ?_, ?_⟩
  · intro h1 h2
    unfold CognitiveGraph.determine_transition
    rw [h1, h2]
  · intro h
    constructor
    · intro hs
      simp [CognitiveGraph.determine_transition, h, hs]
    · intro hs
      simp [CognitiveGraph.determine_transition, h, hs]
  · intro h
    simp [CognitiveGraph.determine_transition, h]
  · intro h
    simp [CognitiveGraph.determine_transition, h]
  · intro h
    simp [CognitiveGraph.determine_transition, h]
  · intro h
    simp [CognitiveGraph.determine_transition, h]
  · intro h
    left
    simp [CognitiveGraph.determine_transition, h]

/-- Witness for C2 at the spec's own test points: score `0.8` branches to
interrogation, score `0.4` to ontology architecture. -/
theorem C2_transition_table_witness :
    CognitiveGraph.determine_transition
      { current_node := .AMBIGUITY_SCANNER, user_input := "",
        ambiguity_score := 8 / 10 } = .node .SOCRATIC_INTERROGATOR ∧
    CognitiveGraph.determine_transition
      { current_node := .AMBIGUITY_SCANNER, user_input := "",
        ambiguity_score := 4 / 10 } = .node .ONTOLOGY_ARCHITECT := by
  constructor
  · exact ((C2_transition_table
      { current_node := .AMBIGUITY_SCANNER, user_input := "", ambiguity_score := 8 / 10 }
      { current_node := .AMBIGUITY_SCANNER, user_input := "", ambiguity_score := 8 / 10 }).2.1
      rfl).1 (by norm_num)
  · exact ((C2_transition_table
      { current_node := .AMBIGUITY_SCANNER, user_input := "", ambiguity_score := 4 / 10 }
      { current_node := .AMBIGUITY_SCANNER, user_input := "", ambiguity_score := 4 / 10 }).2.1
      rfl).2 (by norm_num)

/-- C9: the lexical ambiguity score always lies in `[0, 1]`, and an input
that splits into zero words scores exactly `1`. -/
theorem C9_score_bounds (text : String) :
    0 ≤ calculate_lexical_ambiguity text ∧
    calculate_lexical_ambiguity text ≤ 1 ∧
    (lower_words text = [] → calculate_lexical_ambiguity text = 1) := by
  unfold calculate_lexical_ambiguity
  by_cases h : (lower_words text).length = 0
  · simp [h]
  · have hlen : (0 : ℚ) < ((lower_words text).length : ℚ) := by
      exact_mod_cast Nat.pos_of_ne_zero h
    have hratio : (0 : ℚ) ≤
        (((lower_words text).filter (fun w => VAGUE_TERMS.contains w)).length : ℚ) /
          ((lower_words text).length : ℚ) :=
      div_nonneg (by positivity) (le_of_lt hlen)
    have hpen : (0 : ℚ) ≤ pymax 0 (1 - ((lower_words text).length : ℚ) / 20) :=
      le_pymax_left 0 _
    have hsum : (0 : ℚ) ≤
        (((lower_words text).filter (fun w => VAGUE_TERMS.contains w)).length : ℚ) /
            ((lower_words text).length : ℚ) * 2 +
          pymax 0 (1 - ((lower_words text).length : ℚ) / 20) * (1 / 2) := by
      have := mul_nonneg hratio (by norm_num : (0:ℚ) ≤ 2)
      have := mul_nonneg hpen (by norm_num : (0:ℚ) ≤ 1 / 2)
      linarith
    refine ⟨?_, ?_, ?_⟩
    · simp only [h, if_false]
      exact pymin_nonneg (by norm_num) hsum
    · simp only [h, if_false]
      exact pymin_le_left 1 _
    · intro he
      rw [he] at h
      simp at h

/-- Witness for C9: the empty input splits into no words and scores
exactly `1`. -/
theorem C9_score_bounds_witness :
    lower_words "" = [] ∧ calculate_lexical_ambiguity "" = 1 :=
  ⟨by decide, (C9_score_bounds "").2.2 (by decide)⟩

/-- C3: the get-or-create block of `process_input`.  Absent id: the created
state has the first pipeline stage `AMBIGUITY_SCANNER`, the given input,
empty history and zero ambiguity score, and is stored together with fresh
metadata `created = last_access = now`.  Present id: only `user_input` of
the stored state and `last_access` of its metadata change; all other
sessions, the lock map and the lock book-keeping stay untouched. -/
theorem C3_get_or_init (sid input : String) (now : ℤ) (st : Store) :
    (alist_get st.sessions sid = none →
      (get_or_init sid input now st).1 =
        { current_node := .AMBIGUITY_SCANNER, user_input := input,
          conversation_history := [] } ∧
      (get_or_init sid input now st).1.conversation_history = [] ∧
      (get_or_init sid input now st).1.ambiguity_score = 0 ∧
      alist_get (get_or_init sid input now st).2.sessions sid =
        some (get_or_init sid input now st).1 ∧
      alist_get (get_or_init sid input now st).2.session_metadata sid =
        some { created := now, last_access := now }) ∧
    (∀ s0 m, alist_get st.sessions sid = some s0 →
      alist_get st.session_metadata sid = some m →
      (get_or_init sid input now st).1 = { s0 with user_input := input } ∧
      alist_get (get_or_init sid input now st).2.sessions sid =
        some { s0 with user_input := input } ∧
      alist_get (get_or_init sid input now st).2.session_metadata sid =
        some { m with last_access := now } ∧
      (∀ sid', sid' ≠ sid →
        alist_get (get_or_init sid input now st).2.sessions sid' =
          alist_get st.sessions sid' ∧
        alist_get (get_or_init sid input now st).2.session_metadata sid' =
          alist_get st.session_metadata sid') ∧
      (get_or_init sid input now st).2.session_locks = st.session_locks ∧
      (get_or_init sid input now st).2.locked = st.locked ∧
      (get_or_init sid input now st).2.next_lock = st.next_lock) := by
  constructor
  · intro h
    simp only [get_or_init, init_state, h]
    exact ⟨by trivial, by trivial, by trivial, alist_get_set_same ..,
      alist_get_set_same ..⟩
  · intro s0 m hs0 hm
    simp only [get_or_init, init_state, hs0, hm]
    refine ⟨by trivial, alist_get_set_same .., alist_get_set_same .., ?_,
      by trivial, by trivial, by trivial⟩
    intro sid' hne
    exact ⟨alist_get_set_other _ _ _ _ hne, alist_get_set_other _ _ _ _ hne⟩

/-- Witness for C3: a store holding one session "A"; looking up the fresh
id "B" creates the default state, and re-touching "A" rewrites its input
and refreshes `last_access` while keeping `created`. -/
theorem C3_get_or_init_witness :
    (get_or_init "B" "hi" 5
        { sessions := [("A", { current_node := .EXECUTOR, user_input := "x" })],
          session_metadata := [("A", { created := 1, last_access := 2 })] }).1 =
      { current_node := .AMBIGUITY_SCANNER, user_input := "hi",
        conversation_history := [] } ∧
    alist_get (get_or_init "A" "y" 7
        { sessions := [("A", { current_node := .EXECUTOR, user_input := "x" })],
          session_metadata :=
            [("A", { created := 1, last_access := 2 })] }).2.session_metadata "A" =
      some { created := 1, last_access := 7 } := by
  constructor
  · exact ((C3_get_or_init "B" "hi" 5
      { sessions := [("A", { current_node := .EXECUTOR, user_input := "x" })],
        session_metadata := [("A", { created := 1, last_access := 2 })] }).1
      (by decide)).1
  · exact ((C3_get_or_init "A" "y" 7
      { sessions := [("A", { current_node := .EXECUTOR, user_input := "x" })],
        session_metadata := [("A", { created := 1, last_access := 2 })] }).2
      { current_node := .EXECUTOR, user_input := "x" }
      { created := 1, last_access := 2 } (by decide) (by decide)).2.2.1

theorem alist_mem_of_get {β : Type} {l : List (String × β)} {k : String}
    {v : β} (h : alist_get l k = some v) : (k, v) ∈ l := by
  induction l with
  | nil => simp [alist_get] at h
  | cons p rest ih =>
      obtain ⟨a, b⟩ := p
      by_cases hk : a = k
      · simp only [alist_get, hk, if_pos, Option.some.injEq] at h
        exact List.mem_cons.mpr (Or.inl (by rw [hk, h]))
      · simp only [alist_get, hk, if_neg, if_false] at h
        exact List.mem_cons_of_mem _ (ih h)

/-- The ids swept by `cleanup_expired_sessions`. -/
def expired_ids (now : ℤ) (st : Store) : List String :=
  (st.session_metadata.filter
    (fun p => decide (now - p.2.last_access > SESSION_TTL))).map Prod.fst

theorem mem_expired_ids {now : ℤ} {st : Store} {sid : String}
    {m : SessionMetadata} (hm : alist_get st.session_metadata sid = some m)
    (hexp : now - m.last_access > SESSION_TTL) :
    sid ∈ expired_ids now st := by
  refine List.mem_map.mpr ⟨(sid, m), ?_, rfl⟩
  exact List.mem_filter.mpr ⟨alist_mem_of_get hm, by simpa using hexp⟩

theorem not_mem_expired_ids {now : ℤ} {st : Store} {sid : String}
    {m : SessionMetadata} (hnd : (st.session_metadata.map Prod.fst).Nodup)
    (hm : alist_get st.session_metadata sid = some m)
    (hne : ¬ now - m.last_access > SESSION_TTL) :
    sid ∉ expired_ids now st := by
  intro hmem
  obtain ⟨p, hp, hfst⟩ := List.mem_map.mp hmem
  have hpf := List.mem_filter.mp hp
  have hget : alist_get st.session_metadata p.1 = some p.2 :=
    alist_get_of_mem_nodup hnd hpf.1
  rw [hfst, hm] at hget
  have : m = p.2 := by injection hget
  exact hne (this ▸ (by simpa using hpf.2))

/-- C4: a sweep at time `now` removes a session (its state, metadata and
lock entries together) exactly when `now - last_access` strictly exceeds
the 30-minute TTL, and a sweep that finds nothing expired leaves the store
unchanged. -/
theorem C4_ttl_cleanup (now : ℤ) (st : Store) :
    (∀ sid m, (st.session_metadata.map Prod.fst).Nodup →
      alist_get st.session_metadata sid = some m →
      (now - m.last_access > SESSION_TTL →
        alist_get (cleanup_expired_sessions now st).sessions sid = none ∧
        alist_get (cleanup_expired_sessions now st).session_metadata sid = none ∧
        alist_get (cleanup_expired_sessions now st).session_locks sid = none) ∧
      (¬ now - m.last_access > SESSION_TTL →
        alist_get (cleanup_expired_sessions now st).sessions sid =
          alist_get st.sessions sid ∧
        alist_get (cleanup_expired_sessions now st).session_metadata sid =
          alist_get st.session_metadata sid ∧
        alist_get (cleanup_expired_sessions now st).session_locks sid =
          alist_get st.session_locks sid)) ∧
    ((∀ p ∈ st.session_metadata, ¬ now - p.2.last_access > SESSION_TTL) →
      cleanup_expired_sessions now st = st) := by
  constructor
  · intro sid m hnd hm
    constructor
    · intro hexp
      have hin : sid ∈ expired_ids now st := mem_expired_ids hm hexp
      exact ⟨alist_get_filter_of_mem _ _ _ hin,
        alist_get_filter_of_mem _ _ _ hin,
        alist_get_filter_of_mem _ _ _ hin⟩
    · intro hne
      have hout : sid ∉ expired_ids now st := not_mem_expired_ids hnd hm hne
      exact ⟨alist_get_filter_of_not_mem _ _ _ hout,
        alist_get_filter_of_not_mem _ _ _ hout,
        alist_get_filter_of_not_mem _ _ _ hout⟩
  · intro hall
    have hemp : expired_ids now st = [] := by
      unfold expired_ids
      rw [List.map_eq_nil_iff]
      rw [List.filter_eq_nil_iff]
      intro p hp
      simpa using hall p hp
    show { st with
      sessions := st.sessions.filter (fun p => decide (p.1 ∉ expired_ids now st))
      session_locks :=
        st.session_locks.filter (fun p => decide (p.1 ∉ expired_ids now st))
      session_metadata :=
        st.session_metadata.filter
          (fun p => decide (p.1 ∉ expired_ids now st)) } = st
    rw [hemp]
    simp

/-- Witness for C4 at the TTL boundary: a session last touched at time 0 is
still present after a sweep at `1800` (TTL) and gone after a sweep at
`1801`. -/
theorem C4_ttl_cleanup_witness :
    (alist_get (cleanup_expired_sessions 1800
        { sessions := [("A", { current_node := .EXECUTOR, user_input := "x" })],
          session_metadata := [("A", { created := 0, last_access := 0 })],
          session_locks := [("A", 0)] }).sessions "A" =
      some { current_node := .EXECUTOR, user_input := "x" }) ∧
    (alist_get (cleanup_expired_sessions 1801
        { sessions := [("A", { current_node := .EXECUTOR, user_input := "x" })],
          session_metadata := [("A", { created := 0, last_access := 0 })],
          session_locks := [("A", 0)] }).sessions "A" = none) := by
  constructor
  · have h := (((C4_ttl_cleanup 1800
      { sessions := [("A", { current_node := .EXECUTOR, user_input := "x" })],
        session_metadata := [("A", { created := 0, last_access := 0 })],
        session_locks := [("A", 0)] }).1 "A" { created := 0, last_access := 0 }
      (by decide) (by decide)).2 (by decide)).1
    rw [h]
    decide
  · exact (((C4_ttl_cleanup 1801
      { sessions := [("A", { current_node := .EXECUTOR, user_input := "x" })],
        session_metadata := [("A", { created := 0, last_access := 0 })],
        session_locks := [("A", 0)] }).1 "A" { created := 0, last_access := 0 }
      (by decide) (by decide)).1 (by decide)).1

/-- Well-formedness of the lock registry: distinct ids, every handle below
the allocation counter, and no handle shared by two entries. -/
def LocksWF (st : Store) : Prop :=
  (st.session_locks.map Prod.fst).Nodup ∧
  (∀ p ∈ st.session_locks, p.2 < st.next_lock) ∧
  ∀ p ∈ st.session_locks, ∀ q ∈ st.session_locks, p.2 = q.2 → p.1 = q.1

theorem get_or_create_lock_of_some {sid : String} {st : Store} {h : ℕ}
    (hh : alist_get st.session_locks sid = some h) :
    get_or_create_session_lock sid st = (h, st) := by
  unfold get_or_create_session_lock
  rw [hh]

theorem get_or_create_lock_of_none {sid : String} {st : Store}
    (h : alist_get st.session_locks sid = none) :
    get_or_create_session_lock sid st =
      (st.next_lock,
       { st with
         session_locks := alist_set st.session_locks sid st.next_lock
         next_lock := st.next_lock + 1 }) := by
  unfold get_or_create_session_lock
  rw [h]

/-- After `get_or_create_session_lock`, the id maps to the returned
handle. -/
theorem get_or_create_lock_get (sid : String) (st : Store) :
    alist_get (get_or_create_session_lock sid st).2.session_locks sid =
      some (get_or_create_session_lock sid st).1 := by
  cases h : alist_get st.session_locks sid with
  | some v => rw [get_or_create_lock_of_some h]; exact h
  | none => rw [get_or_create_lock_of_none h]; exact alist_get_set_same ..

/-- `get_or_create_session_lock` preserves registry well-formedness. -/
theorem LocksWF_get_or_create {st : Store} (hwf : LocksWF st) (sid : String) :
    LocksWF (get_or_create_session_lock sid st).2 := by
  cases h : alist_get st.session_locks sid with
  | some v => rw [get_or_create_lock_of_some h]; exact hwf
  | none =>
      rw [get_or_create_lock_of_none h]
      have hset := alist_set_of_get_none st.session_locks sid st.next_lock h
      refine ⟨?_, ?_, ?_⟩
      · show ((alist_set st.session_locks sid st.next_lock).map Prod.fst).Nodup
        rw [hset, List.map_append]
        refine List.Nodup.append hwf.1 (List.nodup_singleton sid) ?_
        simp only [List.map_cons, List.map_nil, List.disjoint_singleton]
        exact (alist_get_eq_none_iff _ _).mp h
      · intro p hp
        rw [show ({ st with
            session_locks := alist_set st.session_locks sid st.next_lock,
            next_lock := st.next_lock + 1 } : Store).session_locks =
          alist_set st.session_locks sid st.next_lock from rfl, hset] at hp
        rcases List.mem_append.mp hp with hl | hr
        · exact Nat.lt_succ_of_lt (hwf.2.1 p hl)
        · simp only [List.mem_singleton] at hr
          rw [hr]
          exact Nat.lt_succ_self _
      · intro p hp q hq he
        rw [show ({ st with
            session_locks := alist_set st.session_locks sid st.next_lock,
            next_lock := st.next_lock + 1 } : Store).session_locks =
          alist_set st.session_locks sid st.next_lock from rfl, hset] at hp hq
        rcases List.mem_append.mp hp with hpl | hpr <;>
          rcases List.mem_append.mp hq with hql | hqr
        · exact hwf.2.2 p hpl q hql he
        · simp only [List.mem_singleton] at hqr
          rw [hqr] at he
          exact absurd he (Nat.ne_of_lt (hwf.2.1 p hpl))
        · simp only [List.mem_singleton] at hpr
          rw [hpr] at he
          exact absurd he.symm (Nat.ne_of_lt (hwf.2.1 q hql))
        · simp only [List.mem_singleton] at hpr hqr
          rw [hpr, hqr]

/-- C6: for a well-formed registry, resolving the same id twice (the second
call on the store the first one left, covering an id not yet present)
returns the same handle; the registry stays well-formed; and in the
resulting registry two distinct ids never map to the same handle.  The
check-and-insert is a single step on the store, as the code's
`async with _locks_lock` block makes it. -/
theorem C6_lock_registry (sid : String) (st : Store) (hwf : LocksWF st) :
    (get_or_create_session_lock sid
        (get_or_create_session_lock sid st).2).1 =
      (get_or_create_session_lock sid st).1 ∧
    LocksWF (get_or_create_session_lock sid st).2 ∧
    (∀ sid1 sid2 h1 h2, sid1 ≠ sid2 →
      alist_get (get_or_create_session_lock sid st).2.session_locks sid1 =
        some h1 →
      alist_get (get_or_create_session_lock sid st).2.session_locks sid2 =
        some h2 →
      h1 ≠ h2) := by
  have hwf' := LocksWF_get_or_create hwf sid
  refine ⟨?_, hwf', ?_⟩
  · rw [get_or_create_lock_of_some (get_or_create_lock_get sid st)]
  · intro sid1 sid2 h1 h2 hne hg1 hg2 he
    exact hne (hwf'.2.2 (sid1, h1) (alist_mem_of_get hg1)
      (sid2, h2) (alist_mem_of_get hg2) he)

/-- Witness for C6: resolving the fresh id "A" twice on an empty registry
yields the same handle both times. -/
theorem C6_lock_registry_witness :
    (get_or_create_session_lock "A"
        (get_or_create_session_lock "A" ({} : Store)).2).1 =
      (get_or_create_session_lock "A" ({} : Store)).1 :=
  (C6_lock_registry "A" {} ⟨List.nodup_nil, by simp, by simp⟩).1

theorem get_or_init_fst (sid input : String) (now : ℤ) (st : Store) :
    (get_or_init sid input now st).1 = init_state sid input st.sessions := by
  unfold get_or_init
  cases h : alist_get st.sessions sid <;> simp [h]

theorem get_or_create_lock_store_fields (sid : String) (st : Store) :
    (get_or_create_session_lock sid st).2.sessions = st.sessions ∧
    (get_or_create_session_lock sid st).2.session_metadata =
      st.session_metadata ∧
    (get_or_create_session_lock sid st).2.locked = st.locked ∧
    (get_or_create_session_lock sid st).2.next_lock ≥ st.next_lock := by
  cases h : alist_get st.session_locks sid with
  | some v => rw [get_or_create_lock_of_some h]; exact ⟨rfl, rfl, rfl, le_refl _⟩
  | none =>
      rw [get_or_create_lock_of_none h]
      exact ⟨rfl, rfl, rfl, Nat.le_succ _⟩

theorem get_or_init_store_fields (sid input : String) (now : ℤ) (st : Store) :
    (get_or_init sid input now st).2.session_locks = st.session_locks ∧
    (get_or_init sid input now st).2.locked = st.locked ∧
    (get_or_init sid input now st).2.next_lock = st.next_lock := by
  unfold get_or_init
  cases h : alist_get st.sessions sid <;> simp [h]

/-- The store as the turn body sees it: after the optional sweep, lock
resolution and lock acquisition. -/
def acquired_store (dc : Bool) (now : ℤ) (req : ProcessRequest)
    (st0 : Store) : Store :=
  let st1 := if dc then cleanup_expired_sessions now st0 else st0
  let st2 := (get_or_create_session_lock req.session_id st1).2
  { st2 with locked := req.session_id :: st2.locked }

/-- Shape of `process_input` when the `try` body succeeds. -/
theorem process_input_ok_eq (o : StageOracles) (dc : Bool) (now : ℤ)
    (req : ProcessRequest) (st0 : Store) (s1 : AgentState)
    (q : Option (List String))
    (hok : run_stages o (init_state req.session_id req.input
      (acquired_store dc now req st0).sessions) = .ok (s1, q)) :
    process_input o dc now req st0 =
      { response := .ok
          { session_id := req.session_id
            ambiguity_score := some s1.ambiguity_score
            questions := q
            message := "Input processed successfully" }
        store :=
          { (get_or_init req.session_id req.input now
              (acquired_store dc now req st0)).2 with
            sessions := alist_set (get_or_init req.session_id req.input now
              (acquired_store dc now req st0)).2.sessions req.session_id s1
            locked := (get_or_init req.session_id req.input now
              (acquired_store dc now req st0)).2.locked.erase req.session_id }
        memory_closed := true } := by
  unfold process_input
  simp only [acquired_store] at hok ⊢
  rw [get_or_init_fst]
  rw [hok]

/-- Shape of `process_input` when the `try` body raises. -/
theorem process_input_error_eq (o : StageOracles) (dc : Bool) (now : ℤ)
    (req : ProcessRequest) (st0 : Store) (e : String)
    (herr : run_stages o (init_state req.session_id req.input
      (acquired_store dc now req st0).sessions) = .error e) :
    process_input o dc now req st0 =
      { response := .error { status_code := 500, detail := e }
        store :=
          { (get_or_init req.session_id req.input now
              (acquired_store dc now req st0)).2 with
            locked := (get_or_init req.session_id req.input now
              (acquired_store dc now req st0)).2.locked.erase req.session_id }
        memory_closed := true } := by
  unfold process_input
  simp only [acquired_store] at herr ⊢
  rw [get_or_init_fst]
  rw [herr]

/-- With the shipped oracles the `try` body never raises: it returns the
scanned state, interrogated when the new score exceeds `0.7`. -/
theorem run_stages_real (s : AgentState) :
    run_stages realOracles s =
      if (AmbiguityScanner.analyze s).ambiguity_score > 7 / 10 then
        .ok (SocraticInterrogator.generate_questions (AmbiguityScanner.analyze s),
             some (last_questions (SocraticInterrogator.generate_questions
               (AmbiguityScanner.analyze s)).conversation_history))
      else .ok (AmbiguityScanner.analyze s, none) := by
  unfold run_stages realOracles
  simp only [Bind.bind, Except.bind, pure, Except.pure]

/-- Whatever happens inside the turn, the lock book-keeping is restored:
the id acquired on entry is released on exit. -/
theorem process_input_locked (o : StageOracles) (dc : Bool) (now : ℤ)
    (req : ProcessRequest) (st : Store) :
    (process_input o dc now req st).store.locked =
      (if dc then cleanup_expired_sessions now st else st).locked := by
  cases hr : run_stages o (init_state req.session_id req.input
      (acquired_store dc now req st).sessions) with
  | ok p =>
      obtain ⟨s1, q⟩ := p
      rw [process_input_ok_eq o dc now req st s1 q hr]
      show ((get_or_init req.session_id req.input now
        (acquired_store dc now req st)).2.locked).erase req.session_id = _
      rw [(get_or_init_store_fields _ _ _ _).2.1]
      show (req.session_id :: (get_or_create_session_lock req.session_id
        (if dc then cleanup_expired_sessions now st else st)).2.locked).erase
          req.session_id = _
      rw [List.erase_cons_head]
      exact (get_or_create_lock_store_fields _ _).2.2.1
  | error e =>
      rw [process_input_error_eq o dc now req st e hr]
      show ((get_or_init req.session_id req.input now
        (acquired_store dc now req st)).2.locked).erase req.session_id = _
      rw [(get_or_init_store_fields _ _ _ _).2.1]
      show (req.session_id :: (get_or_create_session_lock req.session_id
        (if dc then cleanup_expired_sessions now st else st)).2.locked).erase
          req.session_id = _
      rw [List.erase_cons_head]
      exact (get_or_create_lock_store_fields _ _).2.2.1

/-- With the shipped oracles every turn returns a success response. -/
theorem process_input_real_ok (dc : Bool) (now : ℤ) (req : ProcessRequest)
    (st : Store) :
    ∃ resp, (process_input realOracles dc now req st).response = .ok resp ∧
      resp.message = "Input processed successfully" := by
  have hr := run_stages_real (init_state req.session_id req.input
    (acquired_store dc now req st).sessions)
  by_cases h : (AmbiguityScanner.analyze (init_state req.session_id req.input
      (acquired_store dc now req st).sessions)).ambiguity_score > 7 / 10
  · rw [if_pos h] at hr
    rw [process_input_ok_eq _ _ _ _ _ _ _ hr]
    exact ⟨_, rfl, rfl⟩
  · rw [if_neg h] at hr
    rw [process_input_ok_eq _ _ _ _ _ _ _ hr]
    exact ⟨_, rfl, rfl⟩

/-- C5: when the `try` body of a turn raises (a stage processor or the
backend), the turn returns the `HTTPException`-shaped failure carrying the
exception's message, `memory.close()` still runs, the lock state is exactly
as before the turn (the session's lock is acquirable again), and any
subsequent turn on the resulting store is processed normally. -/
theorem C5_failure_handling (o : StageOracles) (now : ℤ)
    (req : ProcessRequest) (st : Store) (e : String)
    (hfail : run_stages o (init_state req.session_id req.input
      (acquired_store false now req st).sessions) = .error e) :
    (process_input o false now req st).response =
      .error { status_code := 500, detail := e } ∧
    (process_input o false now req st).memory_closed = true ∧
    (process_input o false now req st).store.locked = st.locked ∧
    (∀ (now2 : ℤ) (req2 : ProcessRequest),
      ∃ resp, (process_input realOracles false now2 req2
          (process_input o false now req st).store).response = .ok resp ∧
        resp.message = "Input processed successfully" ∧
        (process_input realOracles false now2 req2
          (process_input o false now req st).store).store.locked =
          st.locked) := by
  refine ⟨?_, ?_, ?_, ?_⟩
  · rw [process_input_error_eq o false now req st e hfail]
  · rw [process_input_error_eq o false now req st e hfail]
  · exact process_input_locked o false now req st
  · intro now2 req2
    obtain ⟨resp, hresp, hmsg⟩ := process_input_real_ok false now2 req2
      (process_input o false now req st).store
    refine ⟨resp, hresp, hmsg, ?_⟩
    rw [process_input_locked realOracles false now2 req2 _]
    exact process_input_locked o false now req st

/-- A failing scanner oracle, for the witness below: `scanner.analyze`
raises an exception whose message is "boom". -/
def failing_oracles : StageOracles where
  memory_init := .ok ()
  scan := fun _ => .error "boom"
  interrogate := fun s => .ok s

/-- Witness for C5: a turn whose scanner raises returns the 500 failure,
releases the lock, and the next (healthy) turn for the same session
succeeds. -/
theorem C5_failure_handling_witness :
    (process_input failing_oracles false 0
        { input := "x", session_id := "A" } {}).response =
      .error { status_code := 500, detail := "boom" } ∧
    (process_input failing_oracles false 0
        { input := "x", session_id := "A" } {}).store.locked = [] ∧
    (∃ resp, (process_input realOracles false 1 { input := "x", session_id := "A" }
        (process_input failing_oracles false 0
          { input := "x", session_id := "A" } {}).store).response = .ok resp ∧
      resp.message = "Input processed successfully") := by
  have h := C5_failure_handling failing_oracles 0
    { input := "x", session_id := "A" } {} "boom" rfl
  refine ⟨h.1, h.2.2.1, ?_⟩
  obtain ⟨resp, hresp, hmsg, _⟩ := h.2.2.2 1 { input := "x", session_id := "A" }
  exact ⟨resp, hresp, hmsg⟩

/-- C7: history is append-only.  The scanner and the interrogator each
append exactly one record to the history and touch nothing already there;
a successful turn on an existing session stores a state whose history is
the old history plus the new scan record, plus the interrogation record
exactly when the new score exceeds `0.7`. -/
theorem C7_history_append_only (s : AgentState) (now : ℤ)
    (req : ProcessRequest) (st : Store) (s0 : AgentState)
    (hs : alist_get st.sessions req.session_id = some s0) :
    ((AmbiguityScanner.analyze s).conversation_history =
      s.conversation_history ++
        [HistoryRecord.scan "system"
          (calculate_lexical_ambiguity s.user_input) "Lexical analysis only"]) ∧
    ((SocraticInterrogator.generate_questions s).conversation_history =
      s.conversation_history ++
        [HistoryRecord.clarification "assistant" hardcoded_questions
          hardcoded_reasoning]) ∧
    (∃ s1, alist_get (process_input realOracles false now req st).store.sessions
        req.session_id = some s1 ∧
      ∃ recs, s1.conversation_history = s0.conversation_history ++ recs ∧
        ((s1.ambiguity_score > 7 / 10 ∧
          recs = [HistoryRecord.scan "system" s1.ambiguity_score
                    "Lexical analysis only",
                  HistoryRecord.clarification "assistant" hardcoded_questions
                    hardcoded_reasoning]) ∨
         (¬ s1.ambiguity_score > 7 / 10 ∧
          recs = [HistoryRecord.scan "system" s1.ambiguity_score
                    "Lexical analysis only"]))) := by
  refine ⟨rfl, rfl, ?_⟩
  have hsess : (acquired_store false now req st).sessions = st.sessions := by
    show (get_or_create_session_lock req.session_id st).2.sessions = st.sessions
    exact (get_or_create_lock_store_fields _ _).1
  have hinit : init_state req.session_id req.input
      (acquired_store false now req st).sessions =
      { s0 with user_input := req.input } := by
    rw [hsess]
    unfold init_state
    rw [hs]
  have hr := run_stages_real (init_state req.session_id req.input
    (acquired_store false now req st).sessions)
  by_cases h : (AmbiguityScanner.analyze (init_state req.session_id req.input
      (acquired_store false now req st).sessions)).ambiguity_score > 7 / 10
  · rw [if_pos h] at hr
    rw [process_input_ok_eq _ _ _ _ _ _ _ hr]
    refine ⟨_, alist_get_set_same .., _, ?_, Or.inl ⟨h, rfl⟩⟩
    rw [hinit]
    simp [AmbiguityScanner.analyze, SocraticInterrogator.generate_questions]
  · rw [if_neg h] at hr
    rw [process_input_ok_eq _ _ _ _ _ _ _ hr]
    refine ⟨_, alist_get_set_same .., _, ?_, Or.inr ⟨h, rfl⟩⟩
    rw [hinit]
    simp [AmbiguityScanner.analyze]

/-- The one-session store used by the C7 witness. -/
def c7_store : Store :=
  { sessions := [("A", { current_node := .AMBIGUITY_SCANNER, user_input := "old" })]
    session_metadata := [("A", { created := 0, last_access := 0 })] }

/-- Witness for C7 on a concrete store: a turn on an existing session with
a vague input appends scan and interrogation records to the stored
history. -/
theorem C7_history_append_only_witness :
    ∃ s1, alist_get (process_input realOracles false 3
        { input := "Help me with my business", session_id := "A" }
        c7_store).store.sessions "A" = some s1 ∧
      ∃ recs, s1.conversation_history = ([] : List HistoryRecord) ++ recs := by
  obtain ⟨s1, hget, recs, hrecs, _⟩ :=
    (C7_history_append_only
      { current_node := .AMBIGUITY_SCANNER, user_input := "w" } 3
      { input := "Help me with my business", session_id := "A" }
      c7_store
      { current_node := .AMBIGUITY_SCANNER, user_input := "old" }
      (by decide)).2.2
  exact ⟨s1, hget, recs, hrecs⟩

/-- C8: `TemporalKnowledgeGraph.connect` never raises: a failure of the
driver construction is caught and flips the store into the in-memory
fallback (`use_memory = true`); and the turn handler runs
`memory.close()` on every path, in particular when `memory.initialize()`
failed. -/
theorem C8_backend_fallback (g : TemporalKnowledgeGraph)
    (dr : Except String Unit) (o : StageOracles) (dc : Bool) (now : ℤ)
    (req : ProcessRequest) (st : Store) :
    (∃ g', TemporalKnowledgeGraph.connect dr g = .ok g') ∧
    (∀ e, dr = .error e → g.use_memory = false →
      TemporalKnowledgeGraph.connect dr g = .ok { g with use_memory := true }) ∧
    (process_input o dc now req st).memory_closed = true := by
  refine ⟨?_, ?_, ?_⟩
  · unfold TemporalKnowledgeGraph.connect
    by_cases h : g.use_memory
    · exact ⟨g, by simp [h]⟩
    · cases dr with
      | ok d => exact ⟨{ g with driver := some d }, by simp [h]⟩
      | error e => exact ⟨{ g with use_memory := true }, by simp [h]⟩
  · intro e he hm
    subst he
    unfold TemporalKnowledgeGraph.connect
    simp [hm]
  · cases hr : run_stages o (init_state req.session_id req.input
        (acquired_store dc now req st).sessions) with
    | ok p =>
        obtain ⟨s1, q⟩ := p
        rw [process_input_ok_eq o dc now req st s1 q hr]
    | error e =>
        rw [process_input_error_eq o dc now req st e hr]

/-- Witness for C8: a refused connection with `use_memory=False` falls back
to the in-memory store instead of raising. -/
theorem C8_backend_fallback_witness :
    TemporalKnowledgeGraph.connect (.error "connection refused")
      { use_memory := false, driver := none } =
      .ok { use_memory := true, driver := none } :=
  (C8_backend_fallback { use_memory := false, driver := none }
      (.error "connection refused") realOracles false 0
      { input := "x", session_id := "A" } {}).2.1 "connection refused" rfl rfl

/-- C10: `EpisodicMemory.retrieve` returns at most `k` results, all drawn
from the stored documents with at least one shared lowercased word with the
query (so no overlap anywhere gives `[]`), in non-increasing order of word
overlap, and leaves the stored documents unchanged. -/
theorem C10_retrieve (documents : List StoredDoc) (query : String) (k : ℕ) :
    (EpisodicMemory.retrieve documents query k).length ≤ k ∧
    (∀ r ∈ EpisodicMemory.retrieve documents query k,
      ∃ d ∈ documents, r.content = d.content ∧ r.metadata = d.metadata ∧
        overlap_score (word_set query) d.content > 0) ∧
    ((∀ d ∈ documents, overlap_score (word_set query) d.content = 0) →
      EpisodicMemory.retrieve documents query k = []) ∧
    List.Pairwise (fun a b : RetrievedDoc =>
      overlap_score (word_set query) b.content ≤
        overlap_score (word_set query) a.content)
      (EpisodicMemory.retrieve documents query k) ∧
    (EpisodicMemory.retrieveM { documents := documents } query k).2 =
      { documents := documents } := by
  set scored := documents.filterMap (fun doc =>
    if overlap_score (word_set query) doc.content > 0 then
      some (overlap_score (word_set query) doc.content, doc)
    else none) with hscored
  have hret : EpisodicMemory.retrieve documents query k =
      ((scored.mergeSort (fun a b => decide (b.1 ≤ a.1))).take k).map
        (fun p => { content := p.2.content, metadata := p.2.metadata }) := rfl
  have hmem_scored : ∀ p ∈ scored, p.2 ∈ documents ∧
      p.1 = overlap_score (word_set query) p.2.content ∧ 0 < p.1 := by
    intro p hp
    rw [hscored] at hp
    obtain ⟨d, hd, hfd⟩ := List.mem_filterMap.mp hp
    by_cases hov : overlap_score (word_set query) d.content > 0
    · rw [if_pos hov] at hfd
      have := Option.some.inj hfd
      subst this
      exact ⟨hd, rfl, hov⟩
    · rw [if_neg hov] at hfd
      exact absurd hfd (by simp)
  have htrans : ∀ (a b c : ℕ × StoredDoc),
      (fun a b : ℕ × StoredDoc => decide (b.1 ≤ a.1)) a b = true →
      (fun a b : ℕ × StoredDoc => decide (b.1 ≤ a.1)) b c = true →
      (fun a b : ℕ × StoredDoc => decide (b.1 ≤ a.1)) a c = true := by
    intro a b c h1 h2
    simp only [decide_eq_true_eq] at h1 h2 ⊢
    exact le_trans h2 h1
  have htotal : ∀ (a b : ℕ × StoredDoc),
      ((fun a b : ℕ × StoredDoc => decide (b.1 ≤ a.1)) a b ||
        (fun a b : ℕ × StoredDoc => decide (b.1 ≤ a.1)) b a) = true := by
    intro a b
    simp only [Bool.or_eq_true, decide_eq_true_eq]
    exact Nat.le_total b.1 a.1
  have hsorted := List.sorted_mergeSort htrans htotal scored
  have hperm := List.mergeSort_perm scored (fun a b => decide (b.1 ≤ a.1))
  refine ⟨?_, ?_, ?_, ?_, rfl⟩
  · rw [hret]
    simp only [List.length_map, List.length_take]
    exact min_le_left _ _
  · intro r hr
    rw [hret] at hr
    obtain ⟨p, hp, hpr⟩ := List.mem_map.mp hr
    have hp' : p ∈ scored := hperm.mem_iff.mp ((List.take_sublist _ _).subset hp)
    obtain ⟨hd, hov, hpos⟩ := hmem_scored p hp'
    refine ⟨p.2, hd, ?_, ?_, ?_⟩
    · rw [← hpr]
    · rw [← hpr]
    · rw [← hov]
      exact hpos
  · intro hall
    rw [hret]
    have hnil : scored = [] := by
      rw [hscored]
      rw [List.filterMap_eq_nil_iff]
      intro d hd
      have h0 : ¬ overlap_score (word_set query) d.content > 0 := by
        simp [hall d hd]
      rw [if_neg h0]
    rw [hnil]
    simp [List.mergeSort_nil]
  · rw [hret]
    rw [List.pairwise_map]
    have hsorted' := List.Pairwise.sublist (List.take_sublist k _) hsorted
    refine List.Pairwise.imp_of_mem ?_ hsorted'
    intro a b ha hb hab
    have ha' : a ∈ scored := hperm.mem_iff.mp ((List.take_sublist _ _).subset ha)
    have hb' : b ∈ scored := hperm.mem_iff.mp ((List.take_sublist _ _).subset hb)
    have h1 := (hmem_scored a ha').2.1
    have h2 := (hmem_scored b hb').2.1
    simp only [decide_eq_true_eq] at hab
    rw [← h1, ← h2]
    exact hab

/-- Witness for C10: a query sharing no word with the only stored document
retrieves nothing. -/
theorem C10_retrieve_witness :
    EpisodicMemory.retrieve
      [{ id := "1", content := "alpha beta", metadata := [] }] "gamma" 5 = [] :=
  (C10_retrieve [{ id := "1", content := "alpha beta", metadata := [] }]
    "gamma" 5).2.2.1 (by decide)
